import Mathlib

/-!
# Audio examples of the G1 robot: keyword detection and TTS dispatch

A shallow embedding of

* `src/example/g1/audio/g1_asr_tts_voice_command.cpp` (`detect_keyword`, `asr_handler`,
  `preset_texts_cn`), namespace `VoiceCommand`;
* `src/example/g1/audio/g1_tts_client_example.cpp` (`main`), namespace `TtsClient`.

A `std::string` is the list of its bytes.  The source files are UTF-8 encoded, so a string
literal of the source denotes the UTF-8 bytes of its characters (`utf8`).  Calls into the SDK
and writes to standard output are recorded, in program order, in an effect trace; the values
the remote audio service returns are inputs (`AudioClient`).
-/

/-! ## Byte strings and UTF-8 -/

/-- The bytes of a `std::string`. -/
abbrev Bytes := List Nat

/-- UTF-8 encoding of one Unicode scalar value (1 to 4 bytes). -/
def utf8EncodeChar (c : Char) : Bytes :=
  let v := c.toNat
  if v < 0x80 then [v]
  else if v < 0x800 then [0xC0 + v / 64, 0x80 + v % 64]
  else if v < 0x10000 then [0xE0 + v / 4096, 0x80 + v / 64 % 64, 0x80 + v % 64]
  else [0xF0 + v / 262144, 0x80 + v / 4096 % 64, 0x80 + v / 64 % 64, 0x80 + v % 64]

/-- UTF-8 encoding of a sequence of Unicode scalar values. -/
def utf8Encode : List Char → Bytes
  | [] => []
  | c :: cs => utf8EncodeChar c ++ utf8Encode cs

/-- The bytes a string literal of the (UTF-8) source denotes. -/
def utf8 (s : String) : Bytes := utf8Encode s.data

/-! ## C++ standard library functions used by the programs -/

/-- Search of `std::string::find`: the lowest index at or after the current one at which
`pat` occurs in the remaining text; `none` stands for `std::string::npos`. -/
def findFrom {α : Type} [DecidableEq α] (pat : List α) : List α → Nat → Option Nat
  | [], pos => if pat = [] then some pos else none
  | x :: xs, pos => if pat.isPrefixOf (x :: xs) then some pos else findFrom pat xs (pos + 1)

/-- `text.find(pat)` of `std::string`, searching from index 0. -/
def find {α : Type} [DecidableEq α] (text pat : List α) : Option Nat := findFrom pat text 0

/-- `isspace` in the C locale. -/
def isspace (c : Nat) : Bool := c == 32 || (9 ≤ c && c ≤ 13)

/-- `isdigit`: the ASCII digits. -/
def isdigit (c : Nat) : Bool := 48 ≤ c && c ≤ 57

/-- `std::stoi(str)` in base 10: leading white space is skipped, an optional sign is read,
then the longest run of digits; trailing characters are ignored.  `none` stands for a thrown
exception (`std::invalid_argument` when there is no digit, `std::out_of_range` when the
value does not fit an `int`). -/
def stoi (str : Bytes) : Option Int :=
  let s := str.dropWhile isspace
  let signed : Bool × Bytes :=
    match s with
    | 45 :: rest => (true, rest)
    | 43 :: rest => (false, rest)
    | _ => (false, s)
  let digits := signed.2.takeWhile isdigit
  if digits = [] then none
  else
    let magnitude : Int := digits.foldl (fun acc d => 10 * acc + ((d - 48 : Nat) : Int)) 0
    let value : Int := if signed.1 then -magnitude else magnitude
    if value < -2147483648 ∨ 2147483647 < value then none else some value

/-- Element `a[i]` of a C array with an `int` index; `none` when the index is outside the
array (undefined behaviour in C++). -/
def arrayGet {α : Type} (a : List α) (i : Int) : Option α :=
  if 0 ≤ i then a.get? i.toNat else none

/-! ## Effects -/

/-- One operand of a `std::cout <<` chain. -/
inductive Out where
  | lit (s : String)
  | str (s : Bytes)
  | int (n : Int)
  | endl
deriving DecidableEq, Repr

/-- Observable actions of the programs, in program order. -/
inductive Effect where
  | cout (items : List Out)
  | ChannelFactoryInit (domain : Int) (networkInterface : Bytes)
  | Init
  | SetTimeout (seconds : Nat)
  | InitChannel (topic : String)
  | GetVolume
  | SetVolume (volume : Nat)
  | TtsMaker (text : Bytes) (language : Int)
  | Sleep (seconds : Int)
deriving DecidableEq, Repr

/-- How a function or program run ends. -/
inductive Outcome where
  /-- A `void` function returned. -/
  | done
  /-- `main` returned the status. -/
  | returned (status : Int)
  /-- The call `exit(status)`. -/
  | exited (status : Int)
  /-- An exception left `main`. -/
  | terminated
  /-- An array was indexed outside its bounds. -/
  | undefined
deriving DecidableEq, Repr

/-- What the remote audio service answers to the calls of
`unitree::robot::g1::AudioClient`: the status of each call and, for `GetVolume`, the volume. -/
structure AudioClient where
  GetVolume : Int × Nat
  SetVolume : Nat → Int
  TtsMaker : Bytes → Int → Int

/-- The speak calls of a trace, in order, as (text, language) pairs. -/
def speakCalls : List Effect → List (Bytes × Int)
  | [] => []
  | Effect.TtsMaker text language :: rest => (text, language) :: speakCalls rest
  | _ :: rest => speakCalls rest

/-- The waits of a trace, in order. -/
def sleeps : List Effect → List Int
  | [] => []
  | Effect.Sleep seconds :: rest => seconds :: sleeps rest
  | _ :: rest => sleeps rest

/-- Calls on the audio client or the channel layer (everything but output and waits). -/
def isRemoteCall : Effect → Bool
  | Effect.cout _ => false
  | Effect.Sleep _ => false
  | _ => true

/-- `AUDIO_SUBSCRIBE_TOPIC`. -/
def AUDIO_SUBSCRIBE_TOPIC : String := "rt/audio_msg"

/-! ## `g1_asr_tts_voice_command.cpp` -/

namespace VoiceCommand

/-- The three preset replies (Chinese). -/
def preset_texts_cn : List Bytes :=
  [utf8 "收到主人，小优这就前往冰箱寻找牛奶",
   utf8 "收到主人，小忧这就前往冰箱寻找果汁",
   utf8 "收到主人，小优这就前往冰箱寻找汽水"]

/-- Option number of the first keyword, in the order milk, juice, soda, that occurs in the
text (1, 2, 3), or 0 when none occurs. -/
def detect_keyword (text : Bytes) : Int :=
  if find text (utf8 "牛奶") ≠ none then 1
  else if find text (utf8 "果汁") ≠ none then 2
  else if find text (utf8 "汽水") ≠ none then 3
  else 0

/-- The subscription callback, run on the text of one recognised-speech message;
`g_audio_client` is the global client pointer (`none` for `nullptr`). -/
def asr_handler (g_audio_client : Option AudioClient) (msg : Bytes) : List Effect × Outcome :=
  let recognized_text := msg
  let t0 := [Effect.cout [Out.lit "[ASR Result] ", Out.str recognized_text, Out.endl]]
  let option := detect_keyword recognized_text
  if option > 0 ∧ g_audio_client.isSome = true then
    let t1 := t0 ++ [Effect.cout [Out.lit "[Detected] 识别到关键词，选项: ", Out.int option, Out.endl]]
    match g_audio_client, arrayGet preset_texts_cn (option - 1) with
    | some client, some tts_text =>
      let t2 := t1 ++ [Effect.cout [Out.lit "[TTS] 播报: ", Out.str tts_text, Out.endl]]
      let ret := client.TtsMaker tts_text 0
      let t3 := t2 ++ [Effect.TtsMaker tts_text 0,
        Effect.cout [Out.lit "[TTS] TtsMaker API ret: ", Out.int ret, Out.endl]]
      if ret = 0 then
        (t3 ++ [Effect.Sleep 5, Effect.cout [Out.lit "[TTS] 播报完成", Out.endl]], Outcome.done)
      else
        (t3 ++ [Effect.cout [Out.lit "[TTS] 播报失败，错误码: ", Out.int ret, Out.endl]],
          Outcome.done)
    | _, _ => (t1, Outcome.undefined)
  else if option = 0 then
    (t0 ++ [Effect.cout [Out.lit "[Info] 未识别到关键词（牛奶/果汁/汽水）", Out.endl]],
      Outcome.done)
  else (t0, Outcome.done)

end VoiceCommand

/-! ## `g1_tts_client_example.cpp` -/

namespace TtsClient

/-- The three preset replies (Chinese). -/
def preset_texts_cn : List Bytes :=
  [utf8 "收到主人，小优这就前往冰箱寻找牛奶",
   utf8 "收到主人，小忧这就前往冰箱寻找果汁",
   utf8 "收到主人，小优这就前往冰箱寻找汽水"]

/-- The three preset replies (Japanese). -/
def preset_texts_jp : List Bytes :=
  [utf8 "承知いたしました、主人様。冷蔵庫へ行って牛乳を探します",
   utf8 "承知いたしました、主人様。冷蔵庫へ行ってジュースを探します",
   utf8 "承知いたしました、主人様。冷蔵庫へ行って炭酸飲料を探します"]

/-- The usage text printed when the network interface is missing. -/
def usage (argv0 : Bytes) : List Effect :=
  [Effect.cout [Out.lit "Usage: ", Out.str argv0,
     Out.lit " [NetWorkInterface(eth0)] [option|text] [language]", Out.endl],
   Effect.cout [Out.lit "  NetWorkInterface: 网络接口名称，如 eth0", Out.endl],
   Effect.cout [Out.lit "  option: (可选) 预设选项 1/2/3，或自定义文本", Out.endl],
   Effect.cout [Out.lit "    1 - 指令接收，正在前往冰箱寻找牛奶", Out.endl],
   Effect.cout [Out.lit "    2 - 指令接收，正在前往冰箱寻找果汁", Out.endl],
   Effect.cout [Out.lit "    3 - 指令接收，正在前往冰箱寻找汽水", Out.endl],
   Effect.cout [Out.lit "  text: (可选) 自定义文本，如果option不是1/2/3则作为文本使用", Out.endl],
   Effect.cout [Out.lit "  language: (可选) 语言类型，0=中文，1=英文，2=日语，默认为0", Out.endl],
   Effect.cout [Out.endl],
   Effect.cout [Out.lit "Examples:", Out.endl],
   Effect.cout [Out.lit "  ", Out.str argv0, Out.lit " eth0 1        # 使用预设选项1", Out.endl],
   Effect.cout [Out.lit "  ", Out.str argv0, Out.lit " eth0 2        # 使用预设选项2", Out.endl],
   Effect.cout [Out.lit "  ", Out.str argv0, Out.lit " eth0 3        # 使用预设选项3", Out.endl],
   Effect.cout [Out.lit "  ", Out.str argv0, Out.lit " eth0 \"你好，世界\"  # 自定义文本", Out.endl],
   Effect.cout [Out.lit "  ", Out.str argv0, Out.lit " eth0 1 2        # 使用预设选项1，日语",
     Out.endl]]

/-- Set-up of the client, the subscription and the volume (up to the TTS part). -/
def setup (networkInterface : Bytes) (client : AudioClient) : List Effect :=
  [Effect.ChannelFactoryInit 0 networkInterface,
   Effect.Init,
   Effect.SetTimeout 10,
   Effect.InitChannel AUDIO_SUBSCRIBE_TOPIC,
   Effect.GetVolume,
   Effect.cout [Out.lit "GetVolume API ret:", Out.int client.GetVolume.1,
     Out.lit "  volume = ", Out.int client.GetVolume.2, Out.endl],
   Effect.SetVolume 100,
   Effect.cout [Out.lit "SetVolume to 100% , API ret:", Out.int (client.SetVolume 100), Out.endl]]

/-- The text of the speak call: a preset for the arguments `1`, `2`, `3` (by language),
otherwise the argument itself.  The outcome is the way the selection fails, if it does. -/
def selectText (arg : Bytes) (language : Int) : Except Outcome Bytes :=
  if arg = utf8 "1" ∨ arg = utf8 "2" ∨ arg = utf8 "3" then
    match stoi arg with
    | none => Except.error Outcome.terminated
    | some option =>
      let preset :=
        if language = 2 then arrayGet preset_texts_jp (option - 1)
        else arrayGet preset_texts_cn (option - 1)
      match preset with
      | none => Except.error Outcome.undefined
      | some text => Except.ok text
  else Except.ok arg

/-- The seconds waited after the speak call: an estimate by language, then set to 5. -/
def waitTime (language : Int) : Int :=
  let wait_time : Int := 5
  let wait_time : Int := if language = 1 then 8 else if language = 2 then 6 else wait_time
  -- the estimate is then overwritten by the assignment `wait_time = 5;`
  let wait_time : Int := Function.const Int 5 wait_time
  wait_time

/-- The program, run on the arguments `argv` (with `argc = argv.length`). -/
def main (argv : List Bytes) (client : AudioClient) : List Effect × Outcome :=
  if argv.length < 2 then (usage (argv.getD 0 []), Outcome.exited 0)
  else
    let t0 := setup (argv.getD 1 []) client
    if argv.length ≥ 3 then
      let arg := argv.getD 2 []
      let parsed : Option Int := if argv.length ≥ 4 then stoi (argv.getD 3 []) else some 0
      match parsed with
      | none => (t0, Outcome.terminated)
      | some language =>
        match selectText arg language with
        | Except.error outcome => (t0, outcome)
        | Except.ok text =>
          let ret := client.TtsMaker text language
          let wait_time := waitTime language
          (t0 ++ [Effect.TtsMaker text language,
            Effect.cout [Out.lit "TtsMaker API ret:", Out.int ret, Out.endl],
            Effect.cout [Out.lit "Waiting ", Out.int wait_time,
              Out.lit " seconds for audio playback...", Out.endl],
            Effect.Sleep wait_time,
            Effect.cout [Out.endl, Out.lit "TTS Client finished.", Out.endl]],
            Outcome.returned 0)
    else
      (t0 ++ [Effect.cout [Out.lit "No option or text provided. Please specify:", Out.endl],
        Effect.cout [Out.lit "  1 - 指令接收，正在前往冰箱寻找牛奶", Out.endl],
        Effect.cout [Out.lit "  2 - 指令接收，正在前往冰箱寻找果汁", Out.endl],
        Effect.cout [Out.lit "  3 - 指令接收，正在前往冰箱寻找汽水", Out.endl],
        Effect.cout [Out.lit "  Or provide custom text.", Out.endl],
        Effect.cout [Out.endl, Out.lit "TTS Client finished.", Out.endl]],
        Outcome.returned 0)

end TtsClient

/-! ## Character-level detector (specification side) -/

/-- The detector of `VoiceCommand.detect_keyword` run over a sequence of Unicode scalar
values, with the keywords as two-character patterns. -/
def detect_keyword_chars (s : List Char) : Int :=
  if find s "牛奶".data ≠ none then 1
  else if find s "果汁".data ≠ none then 2
  else if find s "汽水".data ≠ none then 3
  else 0

/-! ## The encoder agrees with the encoder of the Lean core library -/

/-- Setting bit 7 of a 6-bit value adds `0x80`. -/
theorem lor_0x80 : ∀ a < 64, a ||| 0x80 = 0x80 + a := by decide

/-- Setting bits 7 and 6 of a 5-bit value adds `0xC0`. -/
theorem lor_0xC0 : ∀ a < 32, a ||| 0xC0 = 0xC0 + a := by decide

/-- Setting bits 7 to 5 of a 4-bit value adds `0xE0`. -/
theorem lor_0xE0 : ∀ a < 16, a ||| 0xE0 = 0xE0 + a := by decide

/-- Setting bits 7 to 4 of a 3-bit value adds `0xF0`. -/
theorem lor_0xF0 : ∀ a < 8, a ||| 0xF0 = 0xF0 + a := by decide

/-- A continuation byte, computed with masks, in arithmetic form. -/
theorem continuation_byte (x : Nat) : ((x % 256) &&& 0x3f ||| 0x80) = 0x80 + x % 64 := by
  have h1 : (x % 256) &&& 0x3f = x % 256 % 64 := Nat.and_pow_two_sub_one_eq_mod _ 6
  rw [h1, lor_0x80 _ (by omega)]
  omega

/-- The lead byte of a 2-byte sequence in arithmetic form. -/
theorem lead_byte_two (x : Nat) (h : x < 32) : ((x % 256) &&& 0x1f ||| 0xc0) = 0xc0 + x := by
  have h1 : (x % 256) &&& 0x1f = x % 256 % 32 := Nat.and_pow_two_sub_one_eq_mod _ 5
  rw [h1, lor_0xC0 _ (by omega)]
  omega

/-- The lead byte of a 3-byte sequence in arithmetic form. -/
theorem lead_byte_three (x : Nat) (h : x < 16) : ((x % 256) &&& 0x0f ||| 0xe0) = 0xe0 + x := by
  have h1 : (x % 256) &&& 0x0f = x % 256 % 16 := Nat.and_pow_two_sub_one_eq_mod _ 4
  rw [h1, lor_0xE0 _ (by omega)]
  omega

/-- The lead byte of a 4-byte sequence in arithmetic form. -/
theorem lead_byte_four (x : Nat) (h : x < 8) : ((x % 256) &&& 0x07 ||| 0xf0) = 0xf0 + x := by
  have h1 : (x % 256) &&& 0x07 = x % 256 % 8 := Nat.and_pow_two_sub_one_eq_mod _ 3
  rw [h1, lor_0xF0 _ (by omega)]
  omega

/-- Value of a right shift of a 32-bit word by 6. -/
theorem toNat_shiftRight_six (v : UInt32) : (v >>> 6).toNat = v.toNat / 64 := by
  show (v.toBitVec >>> 6).toNat = _
  rw [BitVec.toNat_ushiftRight, Nat.shiftRight_eq_div_pow]
  rfl

/-- Value of a right shift of a 32-bit word by 12. -/
theorem toNat_shiftRight_twelve (v : UInt32) : (v >>> 12).toNat = v.toNat / 4096 := by
  show (v.toBitVec >>> 12).toNat = _
  rw [BitVec.toNat_ushiftRight, Nat.shiftRight_eq_div_pow]
  rfl

/-- Value of a right shift of a 32-bit word by 18. -/
theorem toNat_shiftRight_eighteen (v : UInt32) : (v >>> 18).toNat = v.toNat / 262144 := by
  show (v.toBitVec >>> 18).toNat = _
  rw [BitVec.toNat_ushiftRight, Nat.shiftRight_eq_div_pow]
  rfl

/-- The arithmetic encoder `utf8EncodeChar` computes, byte for byte, the UTF-8 encoding that
the Lean core library defines with shifts and masks. -/
theorem utf8EncodeChar_eq_core (c : Char) :
    (String.utf8EncodeChar c).map UInt8.toNat = utf8EncodeChar c := by
  have hv : c.val.toNat < 0x110000 := by
    have := c.valid
    unfold UInt32.isValidChar Nat.isValidChar at this
    omega
  have e1 : c.toNat = c.val.toNat := rfl
  have l1 : (c.val ≤ 0x7f) ↔ c.val.toNat < 0x80 := by
    rw [UInt32.le_def, BitVec.le_def]
    show c.val.toNat ≤ 127 ↔ _
    omega
  have l2 : (c.val ≤ 0x7ff) ↔ c.val.toNat < 0x800 := by
    rw [UInt32.le_def, BitVec.le_def]
    show c.val.toNat ≤ 2047 ↔ _
    omega
  have l3 : (c.val ≤ 0xffff) ↔ c.val.toNat < 0x10000 := by
    rw [UInt32.le_def, BitVec.le_def]
    show c.val.toNat ≤ 65535 ↔ _
    omega
  have low : ∀ v : UInt32, v.toUInt8.toNat = v.toNat % 256 := fun _ => rfl
  have hor : ∀ a b : UInt8, (a ||| b).toNat = a.toNat ||| b.toNat :=
    fun _ _ => BitVec.toNat_or _ _
  have hand : ∀ a b : UInt8, (a &&& b).toNat = a.toNat &&& b.toNat :=
    fun _ _ => BitVec.toNat_and _ _
  have k3f : (0x3f : UInt8).toNat = 0x3f := rfl
  have k80 : (0x80 : UInt8).toNat = 0x80 := rfl
  have k1f : (0x1f : UInt8).toNat = 0x1f := rfl
  have kc0 : (0xc0 : UInt8).toNat = 0xc0 := rfl
  have k0f : (0x0f : UInt8).toNat = 0x0f := rfl
  have ke0 : (0xe0 : UInt8).toNat = 0xe0 := rfl
  have k07 : (0x07 : UInt8).toNat = 0x07 := rfl
  have kf0 : (0xf0 : UInt8).toNat = 0xf0 := rfl
  unfold String.utf8EncodeChar utf8EncodeChar
  simp only [l1, l2, l3, e1]
  split_ifs with h1 h2 h3
  · simp only [List.map, low]
    congr 1
    omega
  · simp only [List.map, low, hor, hand, toNat_shiftRight_six, k3f, k80, k1f, kc0,
      continuation_byte]
    rw [lead_byte_two _ (by omega)]
  · simp only [List.map, low, hor, hand, toNat_shiftRight_six, toNat_shiftRight_twelve,
      k3f, k80, k0f, ke0, continuation_byte]
    rw [lead_byte_three _ (by omega)]
  · simp only [List.map, low, hor, hand, toNat_shiftRight_six, toNat_shiftRight_twelve,
      toNat_shiftRight_eighteen, k3f, k80, k07, kf0, continuation_byte]
    rw [lead_byte_four _ (by omega)]

/-- The bytes of the three keywords. -/
theorem utf8_keywords :
    utf8 "牛奶" = [0xE7, 0x89, 0x9B, 0xE5, 0xA5, 0xB6] ∧
    utf8 "果汁" = [0xE6, 0x9E, 0x9C, 0xE6, 0xB1, 0x81] ∧
    utf8 "汽水" = [0xE6, 0xB1, 0xBD, 0xE6, 0xB0, 0xB4] := by
  decide

/-! ## Substring search -/

/-- The search finds something exactly when the pattern occurs in the rest of the text. -/
theorem findFrom_ne_none_iff {α : Type} [DecidableEq α] (pat l : List α) (pos : Nat) :
    findFrom pat l pos ≠ none ↔ pat <:+: l := by
  induction l generalizing pos with
  | nil =>
    by_cases h : pat = [] <;> simp [findFrom, h]
  | cons x xs ih =>
    rw [findFrom, List.infix_cons_iff]
    by_cases h : pat.isPrefixOf (x :: xs) = true
    · rw [if_pos h]
      have hp : pat <+: x :: xs := List.isPrefixOf_iff_prefix.mp h
      simp [hp]
    · rw [if_neg h, ih]
      have hp : ¬ pat <+: x :: xs := fun hp => h (List.isPrefixOf_iff_prefix.mpr hp)
      simp [hp]

/-- The result of `find` differs from `npos` exactly when the pattern is a substring. -/
theorem find_ne_none_iff {α : Type} [DecidableEq α] (text pat : List α) :
    find text pat ≠ none ↔ pat <:+: text :=
  findFrom_ne_none_iff pat text 0

/-- A result of the search is an index at which the pattern occurs, and the pattern occurs
at no lower index that was searched. -/
theorem findFrom_eq_some {α : Type} [DecidableEq α] (pat l : List α) (pos i : Nat)
    (h : findFrom pat l pos = some i) :
    pos ≤ i ∧ pat <+: l.drop (i - pos) ∧ ∀ j, j < i - pos → ¬ pat <+: l.drop j := by
  induction l generalizing pos with
  | nil =>
    by_cases hp : pat = []
    · simp [findFrom, hp] at h
      subst h
      simp [hp]
    · simp [findFrom, hp] at h
  | cons x xs ih =>
    rw [findFrom] at h
    by_cases hp : pat.isPrefixOf (x :: xs) = true
    · rw [if_pos hp] at h
      have hi : pos = i := Option.some.inj h
      subst hi
      simpa using List.isPrefixOf_iff_prefix.mp hp
    · rw [if_neg hp] at h
      obtain ⟨h1, h2, h3⟩ := ih (pos + 1) h
      have hk : i - pos = (i - (pos + 1)) + 1 := by omega
      refine ⟨by omega, ?_, ?_⟩
      · rw [hk, List.drop_succ_cons]
        exact h2
      · intro j hj
        cases j with
        | zero =>
          intro hpre
          exact hp (List.isPrefixOf_iff_prefix.mpr (by simpa using hpre))
        | succ j =>
          rw [List.drop_succ_cons]
          exact h3 j (by omega)

/-- The detector as a function of which keywords occur in the text. -/
theorem detect_keyword_eq_ite (text : Bytes) :
    VoiceCommand.detect_keyword text =
      if utf8 "牛奶" <:+: text then 1
      else if utf8 "果汁" <:+: text then 2
      else if utf8 "汽水" <:+: text then 3
      else 0 := by
  unfold VoiceCommand.detect_keyword
  simp only [find_ne_none_iff]

/-! ## The keyword detector -/

/-- C1, as stated, fails: a text that contains the keyword 果汁 (option 2) and also 牛奶 is
mapped to 1, not to 2. -/
theorem detect_keyword_juice_with_milk :
    utf8 "果汁" <:+: utf8 "我想喝果汁和牛奶" ∧
      VoiceCommand.detect_keyword (utf8 "我想喝果汁和牛奶") = 1 ∧
      VoiceCommand.detect_keyword (utf8 "我想喝果汁和牛奶") ≠ 2 := by
  decide

/-- C1 (amended): with any surrounding text, a text containing 牛奶 is mapped to 1; a text
containing 果汁 is mapped to 2 when 牛奶 does not occur in it; a text containing 汽水 is mapped
to 3 when neither 牛奶 nor 果汁 occurs in it. -/
theorem detect_keyword_surrounded (before after : Bytes) :
    VoiceCommand.detect_keyword (before ++ utf8 "牛奶" ++ after) = 1 ∧
    (¬ utf8 "牛奶" <:+: before ++ utf8 "果汁" ++ after →
      VoiceCommand.detect_keyword (before ++ utf8 "果汁" ++ after) = 2) ∧
    (¬ utf8 "牛奶" <:+: before ++ utf8 "汽水" ++ after →
      ¬ utf8 "果汁" <:+: before ++ utf8 "汽水" ++ after →
      VoiceCommand.detect_keyword (before ++ utf8 "汽水" ++ after) = 3) := by
  refine ⟨?_, ?_, ?_⟩
  · rw [detect_keyword_eq_ite, if_pos ⟨before, after, rfl⟩]
  · intro h1
    rw [detect_keyword_eq_ite, if_neg h1, if_pos ⟨before, after, rfl⟩]
  · intro h1 h2
    rw [detect_keyword_eq_ite, if_neg h1, if_neg h2, if_pos ⟨before, after, rfl⟩]

/-- The three commands of the usage text: 我想喝牛奶 gives 1, 我想喝果汁 gives 2 and 我想喝汽水
gives 3. -/
theorem detect_keyword_surrounded_witness :
    VoiceCommand.detect_keyword (utf8 "我想喝" ++ utf8 "牛奶" ++ []) = 1 ∧
    VoiceCommand.detect_keyword (utf8 "我想喝" ++ utf8 "果汁" ++ []) = 2 ∧
    VoiceCommand.detect_keyword (utf8 "我想喝" ++ utf8 "汽水" ++ []) = 3 :=
  ⟨(detect_keyword_surrounded (utf8 "我想喝") []).1,
   (detect_keyword_surrounded (utf8 "我想喝") []).2.1 (by decide),
   (detect_keyword_surrounded (utf8 "我想喝") []).2.2 (by decide) (by decide)⟩

/-- The detector returns 0, 1, 2 or 3. -/
theorem detect_keyword_values (text : Bytes) :
    VoiceCommand.detect_keyword text = 0 ∨ VoiceCommand.detect_keyword text = 1 ∨
      VoiceCommand.detect_keyword text = 2 ∨ VoiceCommand.detect_keyword text = 3 := by
  rw [detect_keyword_eq_ite]
  split_ifs <;> simp

/-- The detector returns 0 exactly when no keyword occurs in the text. -/
theorem detect_keyword_eq_zero_iff (text : Bytes) :
    VoiceCommand.detect_keyword text = 0 ↔
      ¬ utf8 "牛奶" <:+: text ∧ ¬ utf8 "果汁" <:+: text ∧ ¬ utf8 "汽水" <:+: text := by
  rw [detect_keyword_eq_ite]
  split_ifs <;> simp [*]

/-- C2: the detector returns 0, 1, 2 or 3, and it returns 0 exactly when none of the three
keywords is a substring of the text; the empty text gives 0. -/
theorem detect_keyword_range_and_sentinel (text : Bytes) :
    (VoiceCommand.detect_keyword text = 0 ∨ VoiceCommand.detect_keyword text = 1 ∨
      VoiceCommand.detect_keyword text = 2 ∨ VoiceCommand.detect_keyword text = 3) ∧
    (VoiceCommand.detect_keyword text = 0 ↔
      ¬ utf8 "牛奶" <:+: text ∧ ¬ utf8 "果汁" <:+: text ∧ ¬ utf8 "汽水" <:+: text) ∧
    VoiceCommand.detect_keyword [] = 0 :=
  ⟨detect_keyword_values text, detect_keyword_eq_zero_iff text, by decide⟩

/-- C3: the result follows the check order 牛奶, 果汁, 汽水 and not the position in the text:
1 if the text contains 牛奶; 2 if it contains 果汁 and not 牛奶; 3 if it contains 汽水 and
neither of the other two. -/
theorem detect_keyword_priority (text : Bytes) :
    (utf8 "牛奶" <:+: text → VoiceCommand.detect_keyword text = 1) ∧
    (utf8 "果汁" <:+: text → ¬ utf8 "牛奶" <:+: text → VoiceCommand.detect_keyword text = 2) ∧
    (utf8 "汽水" <:+: text → ¬ utf8 "牛奶" <:+: text → ¬ utf8 "果汁" <:+: text →
      VoiceCommand.detect_keyword text = 3) := by
  refine ⟨?_, ?_, ?_⟩
  · intro h1
    rw [detect_keyword_eq_ite, if_pos h1]
  · intro h2 h1
    rw [detect_keyword_eq_ite, if_neg h1, if_pos h2]
  · intro h3 h1 h2
    rw [detect_keyword_eq_ite, if_neg h1, if_neg h2, if_pos h3]

/-- A text in which 果汁 comes before 牛奶 (and 汽水 before both) still yields 1; without
牛奶 the same text yields 2, and with 汽水 alone 3. -/
theorem detect_keyword_priority_witness :
    VoiceCommand.detect_keyword (utf8 "汽水果汁牛奶") = 1 ∧
    VoiceCommand.detect_keyword (utf8 "汽水果汁") = 2 ∧
    VoiceCommand.detect_keyword (utf8 "汽水") = 3 :=
  ⟨(detect_keyword_priority (utf8 "汽水果汁牛奶")).1 (by decide),
   (detect_keyword_priority (utf8 "汽水果汁")).2.1 (by decide) (by decide),
   (detect_keyword_priority (utf8 "汽水")).2.2 (by decide) (by decide) (by decide)⟩

/-! ## The voice-command handler -/

/-- The detector returns a positive option exactly when it returns 1, 2 or 3. -/
theorem detect_keyword_pos_cases (text : Bytes) (h : VoiceCommand.detect_keyword text ≠ 0) :
    VoiceCommand.detect_keyword text = 1 ∨ VoiceCommand.detect_keyword text = 2 ∨
      VoiceCommand.detect_keyword text = 3 := by
  have hr := detect_keyword_values text
  tauto

/-- The run of the handler on a message with a keyword, the client handle being set: the
reply of the detected option is looked up inside the table and spoken once, and the wait or
the failure report follows by the returned status. -/
theorem asr_handler_on_match (client : AudioClient) (msg : Bytes)
    (h : VoiceCommand.detect_keyword msg ≠ 0) :
    ∃ text, arrayGet VoiceCommand.preset_texts_cn (VoiceCommand.detect_keyword msg - 1) = some text ∧
      VoiceCommand.asr_handler (some client) msg =
        ([Effect.cout [Out.lit "[ASR Result] ", Out.str msg, Out.endl],
          Effect.cout [Out.lit "[Detected] 识别到关键词，选项: ",
            Out.int (VoiceCommand.detect_keyword msg), Out.endl],
          Effect.cout [Out.lit "[TTS] 播报: ", Out.str text, Out.endl],
          Effect.TtsMaker text 0,
          Effect.cout [Out.lit "[TTS] TtsMaker API ret: ", Out.int (client.TtsMaker text 0),
            Out.endl]] ++
          (if client.TtsMaker text 0 = 0 then
            [Effect.Sleep 5, Effect.cout [Out.lit "[TTS] 播报完成", Out.endl]]
          else
            [Effect.cout [Out.lit "[TTS] 播报失败，错误码: ", Out.int (client.TtsMaker text 0),
              Out.endl]]),
          Outcome.done) := by
  rcases detect_keyword_pos_cases msg h with hk | hk | hk
  · refine ⟨utf8 "收到主人，小优这就前往冰箱寻找牛奶", by rw [hk]; rfl, ?_⟩
    have ha : arrayGet VoiceCommand.preset_texts_cn (1 - 1)
        = some (utf8 "收到主人，小优这就前往冰箱寻找牛奶") := rfl
    unfold VoiceCommand.asr_handler
    simp only [hk, ha]
    split_ifs <;> simp_all
  · refine ⟨utf8 "收到主人，小忧这就前往冰箱寻找果汁", by rw [hk]; rfl, ?_⟩
    have ha : arrayGet VoiceCommand.preset_texts_cn (2 - 1)
        = some (utf8 "收到主人，小忧这就前往冰箱寻找果汁") := rfl
    unfold VoiceCommand.asr_handler
    simp only [hk, ha]
    split_ifs <;> simp_all
  · refine ⟨utf8 "收到主人，小优这就前往冰箱寻找汽水", by rw [hk]; rfl, ?_⟩
    have ha : arrayGet VoiceCommand.preset_texts_cn (3 - 1)
        = some (utf8 "收到主人，小优这就前往冰箱寻找汽水") := rfl
    unfold VoiceCommand.asr_handler
    simp only [hk, ha]
    split_ifs <;> simp_all

/-- The speak calls of the handler on a message with a keyword: one call, with the reply
found in the table at the index of the detected option, in language 0. -/
theorem asr_handler_speakCalls (client : AudioClient) (msg text : Bytes)
    (h : VoiceCommand.detect_keyword msg ≠ 0)
    (hget : arrayGet VoiceCommand.preset_texts_cn (VoiceCommand.detect_keyword msg - 1)
      = some text) :
    speakCalls (VoiceCommand.asr_handler (some client) msg).1 = [(text, 0)] := by
  obtain ⟨text', hget', hrun⟩ := asr_handler_on_match client msg h
  have ht : text' = text := Option.some.inj (hget'.symm.trans hget)
  subst ht
  rw [hrun]
  by_cases hret : client.TtsMaker text' 0 = 0 <;> simp [hret, speakCalls]

/-- The run of the handler on a message without keyword: two lines of output. -/
theorem asr_handler_no_match (g_audio_client : Option AudioClient) (msg : Bytes)
    (h : VoiceCommand.detect_keyword msg = 0) :
    VoiceCommand.asr_handler g_audio_client msg =
      ([Effect.cout [Out.lit "[ASR Result] ", Out.str msg, Out.endl],
        Effect.cout [Out.lit "[Info] 未识别到关键词（牛奶/果汁/汽水）", Out.endl]],
        Outcome.done) := by
  unfold VoiceCommand.asr_handler
  simp [h]

/-- The run of the handler with a null client handle consists of output only. -/
theorem asr_handler_null_client (msg : Bytes) :
    VoiceCommand.asr_handler none msg =
      ([Effect.cout [Out.lit "[ASR Result] ", Out.str msg, Out.endl]] ++
        (if VoiceCommand.detect_keyword msg = 0 then
          [Effect.cout [Out.lit "[Info] 未识别到关键词（牛奶/果汁/汽水）", Out.endl]]
        else []),
        Outcome.done) := by
  unfold VoiceCommand.asr_handler
  by_cases h : VoiceCommand.detect_keyword msg = 0 <;> simp [h]

/-- C5: for a message that contains a keyword, with the client handle set, the handler makes
one speak call; if that call returns a non-zero status the handler prints the failure report,
waits not at all and makes no second speak call; the wait of 5 seconds is performed if and
only if the status is 0. -/
theorem asr_handler_speak_status (client : AudioClient) (msg : Bytes)
    (hmatch : utf8 "牛奶" <:+: msg ∨ utf8 "果汁" <:+: msg ∨ utf8 "汽水" <:+: msg) :
    ∃ text,
      speakCalls (VoiceCommand.asr_handler (some client) msg).1 = [(text, 0)] ∧
      (client.TtsMaker text 0 ≠ 0 →
        Effect.cout [Out.lit "[TTS] 播报失败，错误码: ", Out.int (client.TtsMaker text 0),
          Out.endl] ∈ (VoiceCommand.asr_handler (some client) msg).1 ∧
        sleeps (VoiceCommand.asr_handler (some client) msg).1 = []) ∧
      (client.TtsMaker text 0 = 0 →
        sleeps (VoiceCommand.asr_handler (some client) msg).1 = [5]) ∧
      (Effect.Sleep 5 ∈ (VoiceCommand.asr_handler (some client) msg).1 ↔
        client.TtsMaker text 0 = 0) := by
  have h0 : VoiceCommand.detect_keyword msg ≠ 0 := by
    intro h
    have := (detect_keyword_eq_zero_iff msg).mp h
    tauto
  obtain ⟨text, hget, hrun⟩ := asr_handler_on_match client msg h0
  refine ⟨text, asr_handler_speakCalls client msg text h0 hget, ?_, ?_, ?_⟩
  · intro hret
    rw [hrun]
    simp [hret, sleeps]
  · intro hret
    rw [hrun]
    simp [hret, sleeps]
  · rw [hrun]
    by_cases hret : client.TtsMaker text 0 = 0 <;> simp [hret]

/-- C5 on the message 我想喝牛奶, for a service whose speak call fails with status 3102. -/
theorem asr_handler_speak_status_witness :
    ∃ text,
      speakCalls (VoiceCommand.asr_handler
        (some ⟨(0, 50), fun _ => 0, fun _ _ => 3102⟩) (utf8 "我想喝牛奶")).1 = [(text, 0)] ∧
      sleeps (VoiceCommand.asr_handler
        (some ⟨(0, 50), fun _ => 0, fun _ _ => 3102⟩) (utf8 "我想喝牛奶")).1 = [] := by
  obtain ⟨text, h1, h2, -, -⟩ :=
    asr_handler_speak_status ⟨(0, 50), fun _ => 0, fun _ _ => 3102⟩ (utf8 "我想喝牛奶")
      (Or.inl (by decide))
  exact ⟨text, h1, (h2 (by simp)).2⟩

/-- C7: with the client handle set, a message for which the detector returns an option k in
1..3 leads to exactly one speak call, with the k-th preset reply (index k-1, inside the
table of three) and language 0; a message for which it returns 0 leads to no remote call and
no wait.  With a null client handle no message leads to a remote call. -/
theorem asr_handler_dispatch (client : AudioClient) (msg : Bytes) :
    (∀ k : Int, 1 ≤ k → k ≤ 3 → VoiceCommand.detect_keyword msg = k →
      ∃ text, VoiceCommand.preset_texts_cn.get? (k - 1).toNat = some text ∧
        0 ≤ k - 1 ∧ (k - 1).toNat < VoiceCommand.preset_texts_cn.length ∧
        speakCalls (VoiceCommand.asr_handler (some client) msg).1 = [(text, 0)] ∧
        (VoiceCommand.asr_handler (some client) msg).2 = Outcome.done) ∧
    (VoiceCommand.detect_keyword msg = 0 →
      (VoiceCommand.asr_handler (some client) msg).1.filter isRemoteCall = [] ∧
      sleeps (VoiceCommand.asr_handler (some client) msg).1 = []) ∧
    (VoiceCommand.asr_handler none msg).1.filter isRemoteCall = [] := by
  refine ⟨?_, ?_, ?_⟩
  · intro k h1 h3 hk
    have h0 : VoiceCommand.detect_keyword msg ≠ 0 := by omega
    obtain ⟨text, hget, hrun⟩ := asr_handler_on_match client msg h0
    have hcalls := asr_handler_speakCalls client msg text h0 hget
    rw [hk] at hget
    have hlen : VoiceCommand.preset_texts_cn.length = 3 := rfl
    refine ⟨text, ?_, by omega, ?_, hcalls, ?_⟩
    · unfold arrayGet at hget
      rwa [if_pos (by omega)] at hget
    · rw [hlen]
      omega
    · rw [hrun]
  · intro h
    rw [asr_handler_no_match (some client) msg h]
    simp [isRemoteCall, sleeps]
  · rw [asr_handler_null_client]
    by_cases h : VoiceCommand.detect_keyword msg = 0 <;> simp [h, isRemoteCall]

/-- C7 on the message 我想喝汽水, detected as option 3. -/
theorem asr_handler_dispatch_witness :
    ∃ text, VoiceCommand.preset_texts_cn.get? 2 = some text ∧
      speakCalls (VoiceCommand.asr_handler
        (some ⟨(0, 50), fun _ => 0, fun _ _ => 0⟩) (utf8 "我想喝汽水")).1 = [(text, 0)] := by
  obtain ⟨text, h1, -, -, h2, -⟩ :=
    (asr_handler_dispatch ⟨(0, 50), fun _ => 0, fun _ _ => 0⟩ (utf8 "我想喝汽水")).1 3
      (by decide) (by decide) (by decide)
  exact ⟨text, h1, h2⟩

/-- C10: each Chinese preset reply contains its own keyword, so the detector maps the reply
of option k back to k, and the handler, given a reply as recognised text, speaks that same
reply again; the three Japanese presets of the TTS client are mapped to 0. -/
theorem detect_keyword_presets :
    (∀ k : Int, 1 ≤ k → k ≤ 3 →
      ∃ text, arrayGet VoiceCommand.preset_texts_cn (k - 1) = some text ∧
        VoiceCommand.detect_keyword text = k ∧
        ∀ client : AudioClient,
          speakCalls (VoiceCommand.asr_handler (some client) text).1 = [(text, 0)]) ∧
    VoiceCommand.preset_texts_cn.map VoiceCommand.detect_keyword = [1, 2, 3] ∧
    TtsClient.preset_texts_jp.map VoiceCommand.detect_keyword = [0, 0, 0] := by
  refine ⟨?_, by decide, by decide⟩
  intro k h1 h3
  have hk : k = 1 ∨ k = 2 ∨ k = 3 := by omega
  rcases hk with rfl | rfl | rfl
  · have hd : VoiceCommand.detect_keyword (utf8 "收到主人，小优这就前往冰箱寻找牛奶") = 1 := by
      decide
    refine ⟨utf8 "收到主人，小优这就前往冰箱寻找牛奶", rfl, hd, fun client => ?_⟩
    exact asr_handler_speakCalls client _ _ (by rw [hd]; decide) (by rw [hd]; rfl)
  · have hd : VoiceCommand.detect_keyword (utf8 "收到主人，小忧这就前往冰箱寻找果汁") = 2 := by
      decide
    refine ⟨utf8 "收到主人，小忧这就前往冰箱寻找果汁", rfl, hd, fun client => ?_⟩
    exact asr_handler_speakCalls client _ _ (by rw [hd]; decide) (by rw [hd]; rfl)
  · have hd : VoiceCommand.detect_keyword (utf8 "收到主人，小优这就前往冰箱寻找汽水") = 3 := by
      decide
    refine ⟨utf8 "收到主人，小优这就前往冰箱寻找汽水", rfl, hd, fun client => ?_⟩
    exact asr_handler_speakCalls client _ _ (by rw [hd]; decide) (by rw [hd]; rfl)

/-- C10 at option 2: the reply for 果汁 is detected as option 2. -/
theorem detect_keyword_presets_witness :
    ∃ text, arrayGet VoiceCommand.preset_texts_cn (2 - 1) = some text ∧
      VoiceCommand.detect_keyword text = 2 := by
  obtain ⟨text, h1, h2, -⟩ := detect_keyword_presets.1 2 (by decide) (by decide)
  exact ⟨text, h1, h2⟩

/-! ## The TTS client -/

/-- The set-up part makes no speak call. -/
theorem speakCalls_setup (networkInterface : Bytes) (client : AudioClient) :
    speakCalls (TtsClient.setup networkInterface client) = [] := rfl

/-- The run of the client on an option or text argument, once the language is read and the
text selected: set-up, the speak call, its status, and the wait of 5 seconds. -/
theorem main_run (prog networkInterface arg : Bytes) (rest : List Bytes) (client : AudioClient)
    (language : Int) (text : Bytes)
    (hlang : (rest = [] ∧ language = 0) ∨
      ∃ a more, rest = a :: more ∧ stoi a = some language)
    (hsel : TtsClient.selectText arg language = Except.ok text) :
    TtsClient.main (prog :: networkInterface :: arg :: rest) client =
      (TtsClient.setup networkInterface client ++
        [Effect.TtsMaker text language,
         Effect.cout [Out.lit "TtsMaker API ret:", Out.int (client.TtsMaker text language),
           Out.endl],
         Effect.cout [Out.lit "Waiting ", Out.int 5, Out.lit " seconds for audio playback...",
           Out.endl],
         Effect.Sleep 5,
         Effect.cout [Out.endl, Out.lit "TTS Client finished.", Out.endl]],
        Outcome.returned 0) := by
  rcases hlang with ⟨rfl, rfl⟩ | ⟨a, more, rfl, ha⟩
  · simp [TtsClient.main, hsel, TtsClient.waitTime]
  · simp [TtsClient.main, hsel, TtsClient.waitTime, ha]

/-- When the language argument is not an integer, the client ends by the exception of
`std::stoi`, before any speak call. -/
theorem main_bad_language (prog networkInterface arg a : Bytes) (more : List Bytes)
    (client : AudioClient) (ha : stoi a = none) :
    TtsClient.main (prog :: networkInterface :: arg :: a :: more) client =
      (TtsClient.setup networkInterface client, Outcome.terminated) := by
  simp [TtsClient.main, ha]

/-- The text selected for the arguments `1`, `2` and `3`. -/
theorem selectText_preset (arg : Bytes) (language : Int)
    (harg : arg = utf8 "1" ∨ arg = utf8 "2" ∨ arg = utf8 "3") :
    ∃ (option : Int) (text : Bytes), stoi arg = some option ∧ 1 ≤ option ∧ option ≤ 3 ∧
      arrayGet (if language = 2 then TtsClient.preset_texts_jp else TtsClient.preset_texts_cn)
        (option - 1) = some text ∧
      TtsClient.selectText arg language = Except.ok text := by
  have h1 : stoi (utf8 "1") = some 1 := by decide
  have h2 : stoi (utf8 "2") = some 2 := by decide
  have h3 : stoi (utf8 "3") = some 3 := by decide
  by_cases hl : language = 2
  · rcases harg with rfl | rfl | rfl
    · exact ⟨1, utf8 "承知いたしました、主人様。冷蔵庫へ行って牛乳を探します", h1, by decide,
        by decide, by rw [if_pos hl]; rfl, by simp [TtsClient.selectText, h1, hl]; rfl⟩
    · exact ⟨2, utf8 "承知いたしました、主人様。冷蔵庫へ行ってジュースを探します", h2, by decide,
        by decide, by rw [if_pos hl]; rfl, by simp [TtsClient.selectText, h2, hl]; rfl⟩
    · exact ⟨3, utf8 "承知いたしました、主人様。冷蔵庫へ行って炭酸飲料を探します", h3, by decide,
        by decide, by rw [if_pos hl]; rfl, by simp [TtsClient.selectText, h3, hl]; rfl⟩
  · rcases harg with rfl | rfl | rfl
    · exact ⟨1, utf8 "收到主人，小优这就前往冰箱寻找牛奶", h1, by decide,
        by decide, by rw [if_neg hl]; rfl, by simp [TtsClient.selectText, h1, hl]; rfl⟩
    · exact ⟨2, utf8 "收到主人，小忧这就前往冰箱寻找果汁", h2, by decide,
        by decide, by rw [if_neg hl]; rfl, by simp [TtsClient.selectText, h2, hl]; rfl⟩
    · exact ⟨3, utf8 "收到主人，小优这就前往冰箱寻找汽水", h3, by decide,
        by decide, by rw [if_neg hl]; rfl, by simp [TtsClient.selectText, h3, hl]; rfl⟩

/-- An argument other than `1`, `2`, `3` is selected as the text itself. -/
theorem selectText_custom (arg : Bytes) (language : Int)
    (h1 : arg ≠ utf8 "1") (h2 : arg ≠ utf8 "2") (h3 : arg ≠ utf8 "3") :
    TtsClient.selectText arg language = Except.ok arg := by
  simp [TtsClient.selectText, h1, h2, h3]

/-- C4: for the option arguments `1`, `2`, `3` the text of the speak call is the preset of
the option, read at index option-1 (within 0..2): the Japanese preset, which differs from
the Chinese one, when the language code is 2, and the Chinese preset for every other
language code. -/
theorem main_preset_by_language (prog networkInterface arg : Bytes) (rest : List Bytes)
    (client : AudioClient) (language : Int)
    (harg : arg = utf8 "1" ∨ arg = utf8 "2" ∨ arg = utf8 "3")
    (hlang : (rest = [] ∧ language = 0) ∨
      ∃ a more, rest = a :: more ∧ stoi a = some language) :
    ∃ (option : Int) (text : Bytes),
      stoi arg = some option ∧ 0 ≤ option - 1 ∧ option - 1 ≤ 2 ∧
      speakCalls (TtsClient.main (prog :: networkInterface :: arg :: rest) client).1
        = [(text, language)] ∧
      (language = 2 →
        TtsClient.preset_texts_jp.get? (option - 1).toNat = some text ∧
        TtsClient.preset_texts_cn.get? (option - 1).toNat ≠ some text) ∧
      (language ≠ 2 → TtsClient.preset_texts_cn.get? (option - 1).toNat = some text) := by
  obtain ⟨option, text, hopt, h1, h3, hget, hsel⟩ := selectText_preset arg language harg
  refine ⟨option, text, hopt, by omega, by omega, ?_, ?_, ?_⟩
  · rw [main_run prog networkInterface arg rest client language text hlang hsel]
    rfl
  · intro hl
    rw [if_pos hl, arrayGet, if_pos (by omega)] at hget
    refine ⟨hget, ?_⟩
    have hk : option = 1 ∨ option = 2 ∨ option = 3 := by omega
    rcases hk with rfl | rfl | rfl
    · have hjp : text = utf8 "承知いたしました、主人様。冷蔵庫へ行って牛乳を探します" :=
        (Option.some.inj hget).symm
      rw [hjp]
      decide
    · have hjp : text = utf8 "承知いたしました、主人様。冷蔵庫へ行ってジュースを探します" :=
        (Option.some.inj hget).symm
      rw [hjp]
      decide
    · have hjp : text = utf8 "承知いたしました、主人様。冷蔵庫へ行って炭酸飲料を探します" :=
        (Option.some.inj hget).symm
      rw [hjp]
      decide
  · intro hl
    rw [if_neg hl, arrayGet, if_pos (by omega)] at hget
    exact hget

/-- C4 on the invocation `eth0 1 2` of the usage text: the Japanese preset of option 1. -/
theorem main_preset_by_language_witness :
    ∃ (option : Int) (text : Bytes),
      stoi (utf8 "1") = some option ∧
      speakCalls (TtsClient.main
        [utf8 "g1_tts_client_example", utf8 "eth0", utf8 "1", utf8 "2"]
        ⟨(0, 50), fun _ => 0, fun _ _ => 0⟩).1 = [(text, 2)] ∧
      TtsClient.preset_texts_jp.get? (option - 1).toNat = some text := by
  obtain ⟨option, text, hopt, -, -, hcall, hjp, -⟩ :=
    main_preset_by_language (utf8 "g1_tts_client_example") (utf8 "eth0") (utf8 "1") [utf8 "2"]
      ⟨(0, 50), fun _ => 0, fun _ _ => 0⟩ 2 (Or.inl rfl)
      (Or.inr ⟨utf8 "2", [], rfl, by decide⟩)
  exact ⟨option, text, hopt, hcall, (hjp rfl).1⟩

/-- C6, as stated, fails: on the invocation `eth0 1`, with a service whose speak call
returns the non-zero status 3102, the client prints the status and then waits 5 seconds. -/
theorem main_waits_after_failed_speak :
    (⟨(0, 50), fun _ => 0, fun _ _ => 3102⟩ : AudioClient).TtsMaker
      (utf8 "收到主人，小优这就前往冰箱寻找牛奶") 0 ≠ 0 ∧
    (TtsClient.main [utf8 "g1_tts_client_example", utf8 "eth0", utf8 "1"]
      ⟨(0, 50), fun _ => 0, fun _ _ => 3102⟩).1.drop 8 =
      [Effect.TtsMaker (utf8 "收到主人，小优这就前往冰箱寻找牛奶") 0,
       Effect.cout [Out.lit "TtsMaker API ret:", Out.int 3102, Out.endl],
       Effect.cout [Out.lit "Waiting ", Out.int 5, Out.lit " seconds for audio playback...",
         Out.endl],
       Effect.Sleep 5,
       Effect.cout [Out.endl, Out.lit "TTS Client finished.", Out.endl]] := by
  decide

/-- C6 (amended): in the TTS client the status of the speak call is printed and nothing
else depends on it: whenever the client makes the speak call, whatever status it returns,
the client prints the status, announces the wait and waits 5 seconds, then finishes. -/
theorem main_speak_then_wait (prog networkInterface arg : Bytes) (rest : List Bytes)
    (client : AudioClient) (text : Bytes) (language : Int)
    (hcall : Effect.TtsMaker text language ∈
      (TtsClient.main (prog :: networkInterface :: arg :: rest) client).1) :
    TtsClient.main (prog :: networkInterface :: arg :: rest) client =
      (TtsClient.setup networkInterface client ++
        [Effect.TtsMaker text language,
         Effect.cout [Out.lit "TtsMaker API ret:", Out.int (client.TtsMaker text language),
           Out.endl],
         Effect.cout [Out.lit "Waiting ", Out.int 5, Out.lit " seconds for audio playback...",
           Out.endl],
         Effect.Sleep 5,
         Effect.cout [Out.endl, Out.lit "TTS Client finished.", Out.endl]],
        Outcome.returned 0) := by
  have hsetup : Effect.TtsMaker text language ∉ TtsClient.setup networkInterface client := by
    simp [TtsClient.setup]
  have key : ∀ language' : Int,
      ((rest = [] ∧ language' = 0) ∨ ∃ a more, rest = a :: more ∧ stoi a = some language') →
      TtsClient.main (prog :: networkInterface :: arg :: rest) client =
        (TtsClient.setup networkInterface client ++
          [Effect.TtsMaker text language,
           Effect.cout [Out.lit "TtsMaker API ret:", Out.int (client.TtsMaker text language),
             Out.endl],
           Effect.cout [Out.lit "Waiting ", Out.int 5,
             Out.lit " seconds for audio playback...", Out.endl],
           Effect.Sleep 5,
           Effect.cout [Out.endl, Out.lit "TTS Client finished.", Out.endl]],
          Outcome.returned 0) := by
    intro language' hlang
    cases hsel : TtsClient.selectText arg language' with
    | error outcome =>
      exfalso
      apply hsetup
      rcases hlang with ⟨rfl, rfl⟩ | ⟨a, more, rfl, ha⟩
      · simpa [TtsClient.main, hsel] using hcall
      · simpa [TtsClient.main, hsel, ha] using hcall
    | ok text' =>
      have hrun := main_run prog networkInterface arg rest client language' text' hlang hsel
      rw [hrun] at hcall
      have hmem : Effect.TtsMaker text language ∈
          [Effect.TtsMaker text' language',
           Effect.cout [Out.lit "TtsMaker API ret:", Out.int (client.TtsMaker text' language'),
             Out.endl],
           Effect.cout [Out.lit "Waiting ", Out.int 5,
             Out.lit " seconds for audio playback...", Out.endl],
           Effect.Sleep 5,
           Effect.cout [Out.endl, Out.lit "TTS Client finished.", Out.endl]] := by
        rcases List.mem_append.mp hcall with h | h
        · exact absurd h hsetup
        · exact h
      simp at hmem
      obtain ⟨rfl, rfl⟩ := hmem
      exact hrun
  cases rest with
  | nil => exact key 0 (Or.inl ⟨rfl, rfl⟩)
  | cons a more =>
    cases ha : stoi a with
    | none =>
      exfalso
      apply hsetup
      rw [main_bad_language prog networkInterface arg a more client ha] at hcall
      exact hcall
    | some language' => exact key language' (Or.inr ⟨a, more, rfl, ha⟩)

/-- C6 (amended) on the invocation `eth0 1` with a failing speak call: the wait is there. -/
theorem main_speak_then_wait_witness :
    sleeps (TtsClient.main [utf8 "g1_tts_client_example", utf8 "eth0", utf8 "1"]
      ⟨(0, 50), fun _ => 0, fun _ _ => 3102⟩).1 = [5] := by
  rw [main_speak_then_wait (utf8 "g1_tts_client_example") (utf8 "eth0") (utf8 "1") []
    ⟨(0, 50), fun _ => 0, fun _ _ => 3102⟩ (utf8 "收到主人，小优这就前往冰箱寻找牛奶") 0
    (by decide)]
  rfl

/-- C8, as stated, fails: on the invocation `eth0 hello abc` the second argument is none of
`1`, `2`, `3`, yet it is not passed to any speak call: `std::stoi` throws on the third
argument `abc`, and the client ends after the set-up without a speak call. -/
theorem main_no_speak_on_bad_language :
    utf8 "hello" ≠ utf8 "1" ∧ utf8 "hello" ≠ utf8 "2" ∧ utf8 "hello" ≠ utf8 "3" ∧
    stoi (utf8 "abc") = none ∧
    speakCalls (TtsClient.main
      [utf8 "g1_tts_client_example", utf8 "eth0", utf8 "hello", utf8 "abc"]
      ⟨(0, 50), fun _ => 0, fun _ _ => 0⟩).1 = [] ∧
    (TtsClient.main
      [utf8 "g1_tts_client_example", utf8 "eth0", utf8 "hello", utf8 "abc"]
      ⟨(0, 50), fun _ => 0, fun _ _ => 0⟩).2 = Outcome.terminated := by
  decide

/-- C8 (amended): when the third argument is absent or `std::stoi` reads an integer from it,
exactly one speak call is made; its language code is that integer, or 0 when there is no
third argument, and its text is the second argument itself when that is none of `1`, `2`,
`3`.  Every speak call of any run carries this language code. -/
theorem main_custom_text_and_language (prog networkInterface arg : Bytes) (rest : List Bytes)
    (client : AudioClient) :
    (∀ language : Int,
      ((rest = [] ∧ language = 0) ∨ ∃ a more, rest = a :: more ∧ stoi a = some language) →
      ∃ text,
        speakCalls (TtsClient.main (prog :: networkInterface :: arg :: rest) client).1
          = [(text, language)] ∧
        (arg ≠ utf8 "1" → arg ≠ utf8 "2" → arg ≠ utf8 "3" → text = arg)) ∧
    (∀ text language,
      Effect.TtsMaker text language ∈
        (TtsClient.main (prog :: networkInterface :: arg :: rest) client).1 →
      (rest = [] ∧ language = 0) ∨ ∃ a more, rest = a :: more ∧ stoi a = some language) := by
  constructor
  · intro language hlang
    by_cases harg : arg = utf8 "1" ∨ arg = utf8 "2" ∨ arg = utf8 "3"
    · obtain ⟨option, text, -, -, -, -, hsel⟩ := selectText_preset arg language harg
      refine ⟨text, ?_, ?_⟩
      · rw [main_run prog networkInterface arg rest client language text hlang hsel]
        rfl
      · intro h1 h2 h3
        tauto
    · have h1 : arg ≠ utf8 "1" := fun h => harg (Or.inl h)
      have h2 : arg ≠ utf8 "2" := fun h => harg (Or.inr (Or.inl h))
      have h3 : arg ≠ utf8 "3" := fun h => harg (Or.inr (Or.inr h))
      refine ⟨arg, ?_, fun _ _ _ => rfl⟩
      rw [main_run prog networkInterface arg rest client language arg hlang
        (selectText_custom arg language h1 h2 h3)]
      rfl
  · intro text language hcall
    have hsetup : Effect.TtsMaker text language ∉ TtsClient.setup networkInterface client := by
      simp [TtsClient.setup]
    cases rest with
    | nil =>
      left
      refine ⟨rfl, ?_⟩
      cases hsel : TtsClient.selectText arg 0 with
      | error outcome =>
        exfalso
        apply hsetup
        simpa [TtsClient.main, hsel] using hcall
      | ok text' =>
        rw [main_run prog networkInterface arg [] client 0 text' (Or.inl ⟨rfl, rfl⟩) hsel]
          at hcall
        simp [TtsClient.setup] at hcall
        exact hcall.2
    | cons a more =>
      right
      refine ⟨a, more, rfl, ?_⟩
      cases ha : stoi a with
      | none =>
        exfalso
        apply hsetup
        rw [main_bad_language prog networkInterface arg a more client ha] at hcall
        exact hcall
      | some language' =>
        cases hsel : TtsClient.selectText arg language' with
        | error outcome =>
          exfalso
          apply hsetup
          simpa [TtsClient.main, hsel, ha] using hcall
        | ok text' =>
          rw [main_run prog networkInterface arg (a :: more) client language' text'
            (Or.inr ⟨a, more, rfl, ha⟩) hsel] at hcall
          simp [TtsClient.setup] at hcall
          rw [hcall.2]

/-- C8 (amended) on the arguments `0`, `4`, `01`, ` 1` and the empty string, each passed as the text,
without a language argument (language 0) and with the language argument `1`. -/
theorem main_custom_text_and_language_witness :
    (∀ arg ∈ [utf8 "0", utf8 "4", utf8 "01", utf8 " 1", utf8 ""],
      speakCalls (TtsClient.main [utf8 "g1_tts_client_example", utf8 "eth0", arg]
        ⟨(0, 50), fun _ => 0, fun _ _ => 0⟩).1 = [(arg, 0)]) ∧
    (∃ text, speakCalls (TtsClient.main
        [utf8 "g1_tts_client_example", utf8 "eth0", utf8 "你好，世界", utf8 "1"]
        ⟨(0, 50), fun _ => 0, fun _ _ => 0⟩).1 = [(text, 1)] ∧ text = utf8 "你好，世界") := by
  refine ⟨by decide, ?_⟩
  obtain ⟨text, h1, h2⟩ :=
    (main_custom_text_and_language (utf8 "g1_tts_client_example") (utf8 "eth0")
      (utf8 "你好，世界") [utf8 "1"] ⟨(0, 50), fun _ => 0, fun _ _ => 0⟩).1 1
      (Or.inr ⟨utf8 "1", [], rfl, by decide⟩)
  exact ⟨text, h1, h2 (by decide) (by decide) (by decide)⟩

/-! ## Byte-level and character-level matching -/

/-- The encoding of a character starts with a byte outside `0x80..0xBF`, and all its
other bytes are inside that range. -/
theorem utf8EncodeChar_shape (c : Char) :
    ∃ b tail, utf8EncodeChar c = b :: tail ∧ (b < 0x80 ∨ 0xC0 ≤ b) ∧
      ∀ x ∈ tail, 0x80 ≤ x ∧ x < 0xC0 := by
  unfold utf8EncodeChar
  simp only
  split_ifs with h1 h2 h3
  · exact ⟨_, _, rfl, by omega, by simp⟩
  · refine ⟨_, _, rfl, by omega, ?_⟩
    intro x hx
    simp at hx
    omega
  · refine ⟨_, _, rfl, by omega, ?_⟩
    intro x hx
    simp at hx
    omega
  · refine ⟨_, _, rfl, by omega, ?_⟩
    intro x hx
    simp at hx
    omega

/-- The encoding is a prefix code: the first character of an encoded text is determined. -/
theorem utf8EncodeChar_prefix_free (c a : Char) (r r' : Bytes)
    (h : utf8EncodeChar c ++ r = utf8EncodeChar a ++ r') : c = a ∧ r = r' := by
  have hv : c.toNat = a.toNat := by
    unfold utf8EncodeChar at h
    simp only at h
    split_ifs at h <;> simp at h <;> omega
  have hca : c = a := by
    apply Char.ext
    apply UInt32.ext
    exact hv
  subst hca
  exact ⟨rfl, List.append_cancel_left h⟩

/-- The encoding of a concatenation is the concatenation of the encodings. -/
theorem utf8Encode_append (s t : List Char) :
    utf8Encode (s ++ t) = utf8Encode s ++ utf8Encode t := by
  induction s with
  | nil => rfl
  | cons c cs ih => simp [utf8Encode, ih]

/-- A byte outside `0x80..0xBF` occurs in an encoded text only as the first byte of a
character: the text splits there. -/
theorem utf8Encode_split_at_lead (x : Nat) (hx : x < 0x80 ∨ 0xC0 ≤ x) (s : List Char)
    (p q : Bytes) (h : utf8Encode s = p ++ x :: q) :
    ∃ s1 s2, s = s1 ++ s2 ∧ utf8Encode s1 = p ∧ utf8Encode s2 = x :: q := by
  induction s generalizing p with
  | nil =>
    simp [utf8Encode] at h
  | cons c cs ih =>
    rw [utf8Encode, List.append_eq_append_iff] at h
    rcases h with ⟨a', hp, hcs⟩ | ⟨c', hc, hq⟩
    · obtain ⟨s1, s2, hs, h1, h2⟩ := ih a' hcs
      refine ⟨c :: s1, s2, by rw [hs]; rfl, ?_, h2⟩
      rw [utf8Encode, h1, hp]
    · cases c' with
      | nil =>
        refine ⟨[c], cs, rfl, ?_, ?_⟩
        · simpa [utf8Encode] using hc
        · simpa using hq.symm
      | cons y c'' =>
        have hxy : x = y := by
          have := congrArg List.head? hq
          simpa using this
        subst hxy
        cases p with
        | nil =>
          refine ⟨[], c :: cs, rfl, rfl, ?_⟩
          rw [utf8Encode, hc]
          simp at hq
          simp [hq]
        | cons b p' =>
          exfalso
          obtain ⟨b0, tail, hshape, -, htail⟩ := utf8EncodeChar_shape c
          rw [hshape] at hc
          have hmem : x ∈ tail := by
            have htl : tail = p' ++ x :: c'' := by
              have := congrArg List.tail hc
              simpa using this
            rw [htl]
            simp
          have := htail x hmem
          omega

/-- An encoded text that starts with the encoding of `pat` comes from a text that starts
with `pat`. -/
theorem utf8Encode_prefix_decode (pat s : List Char) (q : Bytes)
    (h : utf8Encode s = utf8Encode pat ++ q) :
    ∃ s', s = pat ++ s' ∧ utf8Encode s' = q := by
  induction pat generalizing s with
  | nil => exact ⟨s, rfl, by simpa [utf8Encode] using h⟩
  | cons a pat' ih =>
    cases s with
    | nil =>
      exfalso
      obtain ⟨b0, tail, hshape, -, -⟩ := utf8EncodeChar_shape a
      simp [utf8Encode, hshape] at h
    | cons c cs =>
      rw [utf8Encode, utf8Encode, List.append_assoc] at h
      obtain ⟨rfl, hrest⟩ := utf8EncodeChar_prefix_free c a _ _ h
      obtain ⟨s', hs, hq⟩ := ih cs hrest
      exact ⟨s', by rw [hs]; rfl, hq⟩

/-- Byte-level and character-level containment agree on encoded texts. -/
theorem utf8Encode_infix_iff (pat s : List Char) :
    utf8Encode pat <:+: utf8Encode s ↔ pat <:+: s := by
  constructor
  · rintro ⟨p, q, h⟩
    cases pat with
    | nil => exact List.nil_infix
    | cons a pat' =>
      obtain ⟨b0, tail, hshape, hlead, -⟩ := utf8EncodeChar_shape a
      have h' : utf8Encode s = p ++ b0 :: (tail ++ utf8Encode pat' ++ q) := by
        rw [← h, utf8Encode, hshape]
        simp
      obtain ⟨s1, s2, hs, -, h2⟩ := utf8Encode_split_at_lead b0 hlead s p _ h'
      have h2' : utf8Encode s2 = utf8Encode (a :: pat') ++ q := by
        rw [h2, utf8Encode, hshape]
        simp
      obtain ⟨s', hs2, -⟩ := utf8Encode_prefix_decode (a :: pat') s2 q h2'
      exact ⟨s1, s', by rw [hs, hs2, List.append_assoc]⟩
  · rintro ⟨s1, s2, h⟩
    refine ⟨utf8Encode s1, utf8Encode s2, ?_⟩
    rw [← h, utf8Encode_append, utf8Encode_append]

/-- C9: on the UTF-8 encoding of any sequence of Unicode scalar values the byte-level
detector returns what the character-level detector returns on the sequence itself; so it
reports a match only for a text in which the two characters of a keyword are adjacent. -/
theorem detect_keyword_utf8_agrees (s : List Char) :
    VoiceCommand.detect_keyword (utf8Encode s) = detect_keyword_chars s ∧
    (VoiceCommand.detect_keyword (utf8Encode s) = 0 ↔
      ¬ ['牛', '奶'] <:+: s ∧ ¬ ['果', '汁'] <:+: s ∧ ¬ ['汽', '水'] <:+: s) := by
  have h : VoiceCommand.detect_keyword (utf8Encode s) = detect_keyword_chars s := by
    unfold VoiceCommand.detect_keyword detect_keyword_chars utf8
    simp only [find_ne_none_iff, utf8Encode_infix_iff]
  refine ⟨h, ?_⟩
  rw [detect_keyword_eq_zero_iff (utf8Encode s)]
  unfold utf8
  simp only [utf8Encode_infix_iff]
